import Mathlib

/-!
Verification development for the mean-reversion trading core.

The development shallowly embeds two source modules:

* `technical_indicator_service.py` — windowed indicator computations over a
  close-price series (Bollinger bands, RSI, MACD, volatility, momentum).
  Floating-point values are modelled by `PV`: either NaN, ±infinity, or an
  exact rational.  The rolling/ewm primitives reproduce the semantics of the
  pandas calls in the source (observation counting with `min_periods`,
  sample standard deviation with one degree of freedom, division by zero
  yielding ±infinity, NaN propagation).  The square root inside the rolling
  standard deviation is kept abstract as a parameter `sqrtF`; theorems that
  need it only assume it maps non-negative inputs to non-negative outputs.

* `trading_logic_service.py` — feature-vector preparation and the trade
  decision function.  A possibly-NaN cell of the feature candle is an
  `Option ℚ`; the injected model is a function `List ℚ → Except Unit ℤ`
  whose `error` case models a raised exception.
-/

namespace MeanReversion

/-- Pandas cell value: NaN, +inf, -inf, or a finite (rational) number. -/
inductive PV where
  | nan : PV
  | inf : PV
  | ninf : PV
  | fin : ℚ → PV
deriving DecidableEq

namespace PV

/-- Is this value NaN? -/
def isNan : PV → Bool
  | .nan => true
  | _ => false

/-- IEEE-style addition on `PV`. -/
def add : PV → PV → PV
  | .nan, _ => .nan
  | _, .nan => .nan
  | .inf, .ninf => .nan
  | .ninf, .inf => .nan
  | .inf, _ => .inf
  | _, .inf => .inf
  | .ninf, _ => .ninf
  | _, .ninf => .ninf
  | .fin a, .fin b => .fin (a + b)

/-- IEEE-style negation on `PV`. -/
def neg : PV → PV
  | .nan => .nan
  | .inf => .ninf
  | .ninf => .inf
  | .fin a => .fin (-a)

/-- IEEE-style subtraction on `PV`. -/
def sub (a b : PV) : PV := a.add b.neg

/-- IEEE-style multiplication on `PV`. -/
def mul : PV → PV → PV
  | .nan, _ => .nan
  | _, .nan => .nan
  | .inf, .inf => .inf
  | .inf, .ninf => .ninf
  | .ninf, .inf => .ninf
  | .ninf, .ninf => .inf
  | .inf, .fin b => if 0 < b then .inf else if b < 0 then .ninf else .nan
  | .fin a, .inf => if 0 < a then .inf else if a < 0 then .ninf else .nan
  | .ninf, .fin b => if 0 < b then .ninf else if b < 0 then .inf else .nan
  | .fin a, .ninf => if 0 < a then .ninf else if a < 0 then .inf else .nan
  | .fin a, .fin b => .fin (a * b)

/-- IEEE-style division on `PV`; a nonzero finite number divided by zero
gives a signed infinity and `0 / 0` gives NaN, matching numpy/pandas
elementwise division. -/
def div : PV → PV → PV
  | .nan, _ => .nan
  | _, .nan => .nan
  | .inf, .inf => .nan
  | .inf, .ninf => .nan
  | .ninf, .inf => .nan
  | .ninf, .ninf => .nan
  | .inf, .fin b => if b < 0 then .ninf else .inf
  | .ninf, .fin b => if b < 0 then .inf else .ninf
  | .fin _, .inf => .fin 0
  | .fin _, .ninf => .fin 0
  | .fin a, .fin b =>
    if b = 0 then (if a = 0 then .nan else if 0 < a then .inf else .ninf)
    else .fin (a / b)

/-- IEEE-style strict less-than on `PV`; any comparison with NaN is false. -/
def ltb : PV → PV → Bool
  | .nan, _ => false
  | _, .nan => false
  | .inf, _ => false
  | .ninf, .ninf => false
  | .ninf, _ => true
  | .fin _, .inf => true
  | .fin _, .ninf => false
  | .fin a, .fin b => decide (a < b)

end PV

/-- The trailing window of width `w` ending at index `i` (pandas rolling
window semantics: the last `min (w, i+1)` elements up to and including
index `i`). -/
def windowAt (xs : List ℚ) (w i : ℕ) : List ℚ :=
  (xs.take (i + 1)).drop (i + 1 - w)

/-- `Series.rolling(window=w, min_periods=m).mean()` over a fully numeric
series: NaN where the window holds fewer than `max m 1` observations, the
exact arithmetic mean otherwise. -/
def rollingMeanQ (w m : ℕ) (xs : List ℚ) : List PV :=
  (List.range xs.length).map fun i =>
    let win := windowAt xs w i
    if m ≤ win.length ∧ 1 ≤ win.length then .fin (win.sum / win.length) else .nan

/-- Sample variance (one delta degree of freedom) of a window. -/
def svar (win : List ℚ) : ℚ :=
  let μ := win.sum / win.length
  (win.map fun x => (x - μ) ^ 2).sum / ((win.length : ℚ) - 1)

/-- `Series.rolling(window=w, min_periods=m).std()` over a fully numeric
series: NaN where the window holds fewer than `max m 2` observations
(the sample standard deviation of a single observation is NaN), otherwise
`sqrtF` of the sample variance. -/
def rollingStdQ (sqrtF : ℚ → ℚ) (w m : ℕ) (xs : List ℚ) : List PV :=
  (List.range xs.length).map fun i =>
    let win := windowAt xs w i
    if m ≤ win.length ∧ 2 ≤ win.length then .fin (sqrtF (svar win)) else .nan

/-- `Series.rolling(window=w, min_periods=m).mean()` over a series that may
contain NaN: NaN entries in the window are skipped, and the result is NaN
when fewer than `max m 1` observations remain. -/
def rollingMeanPV (w m : ℕ) (xs : List PV) : List PV :=
  (List.range xs.length).map fun i =>
    let obs := ((xs.take (i + 1)).drop (i + 1 - w)).filter fun v => !v.isNan
    if m ≤ obs.length ∧ 1 ≤ obs.length then
      (obs.foldr PV.add (.fin 0)).div (.fin obs.length)
    else .nan

/-- `Series.diff()`: NaN at index 0, consecutive differences afterwards. -/
def diffQ : List ℚ → List PV
  | [] => []
  | x :: xs => .nan :: List.zipWith (fun a b => PV.fin (b - a)) (x :: xs) xs

/-- `Series.pct_change(n)`: NaN for the first `n` rows, then
`x_i / x_(i-n) - 1` with IEEE division. -/
def pctChange (n : ℕ) (xs : List ℚ) : List PV :=
  (List.range xs.length).map fun i =>
    if n ≤ i then
      ((PV.fin (xs.getD i 0)).div (PV.fin (xs.getD (i - n) 0))).sub (.fin 1)
    else .nan

/-- Recursive worker of the exponential moving average, carrying the
current smoothed value. -/
def ewmGo (alpha y : ℚ) : List ℚ → List ℚ
  | [] => [y]
  | x :: xs => y :: ewmGo alpha ((1 - alpha) * y + alpha * x) xs

/-- `Series.ewm(span=s, adjust=False).mean()` with smoothing factor
`alpha = 2 / (s + 1)`: the zero-bias recursive exponential moving average
`y_0 = x_0`, `y_i = (1 - alpha) * y_(i-1) + alpha * x_i`. -/
def ewmMean (alpha : ℚ) : List ℚ → List ℚ
  | [] => []
  | x :: xs => ewmGo alpha x xs

/-- Indicator-period configuration; mirrors the values the source imports
from `live_trader_config` (not part of the repository sources, hence kept
as parameters). -/
structure IndicatorConfig where
  bollinger_period : ℤ
  bollinger_std_dev : ℚ
  rsi_period : ℤ
  macd_fast : ℤ
  macd_slow : ℤ
  macd_signal_period : ℤ
deriving DecidableEq

/-- Output columns of `add_bollinger_bands`. -/
structure BollingerFrame where
  bb_middle : List PV
  bb_upper : List PV
  bb_lower : List PV
  bb_percent : List PV
deriving DecidableEq

/-- Shallow embedding of `add_bollinger_bands`: rolling mean and sample
standard deviation of the close over `period`, bands at
`middle ± std * std_dev`, and `bb_percent` guarded against a zero band
range exactly as the `np.where` in the source.  A negative rolling window
is rejected by pandas at the `rolling` call (`ValueError`), which the
embedding surfaces as `Except.error`. -/
def add_bollinger_bands (sqrtF : ℚ → ℚ) (closes : List ℚ) (period : ℤ)
    (std_dev : ℚ) : Except String BollingerFrame :=
  if period < 0 then .error "window must be an integer 0 or greater"
  else
    let w := period.toNat
    let mid := rollingMeanQ w w closes
    let sd := rollingStdQ sqrtF w w closes
    let upper := List.zipWith (fun m s => m.add (s.mul (.fin std_dev))) mid sd
    let lower := List.zipWith (fun m s => m.sub (s.mul (.fin std_dev))) mid sd
    let bbRange := List.zipWith PV.sub upper lower
    let pct := List.zipWith
      (fun cl r => if r ≠ PV.fin 0 then ((PV.fin cl.1).sub cl.2).div r else .nan)
      (closes.zip lower) bbRange
    .ok ⟨mid, upper, lower, pct⟩

/-- RSI pipeline of the source: close deltas, positive/negative parts via
`where`, rolling means with `min_periods=1`, ratio, and the
`100 - 100/(1+rs)` map. -/
def computeRsi (p : ℕ) (closes : List ℚ) : List PV :=
  let delta := diffQ closes
  let gain := rollingMeanPV p 1
    (delta.map fun d => if PV.ltb (.fin 0) d then d else .fin 0)
  let loss := rollingMeanPV p 1
    ((delta.map fun d => if PV.ltb d (.fin 0) then d else .fin 0).map PV.neg)
  let rs := List.zipWith PV.div gain loss
  rs.map fun r => (PV.fin 100).sub ((PV.fin 100).div ((PV.fin 1).add r))

/-- MACD line: fast EMA minus slow EMA of the close. -/
def computeMacd (fast slow : ℤ) (closes : List ℚ) : List ℚ :=
  List.zipWith (· - ·)
    (ewmMean (2 / ((fast : ℚ) + 1)) closes)
    (ewmMean (2 / ((slow : ℚ) + 1)) closes)

/-- The indicator-augmented frame produced by
`add_all_technical_indicators` (columnar, like the source DataFrame).
`volume_sma`/`volume_ratio` are present only when the input has a volume
column; `hour`/`day_of_week` are present only for a datetime index. -/
structure IndicatorFrame where
  close : List ℚ
  bb_middle : List PV
  bb_upper : List PV
  bb_lower : List PV
  bb_percent : List PV
  rsi : List PV
  macd : List ℚ
  macd_signal : List ℚ
  volume_sma : Option (List PV)
  volume_ratio : Option (List PV)
  price_change_1 : List PV
  price_change_5 : List PV
  volatility : List PV
  hour : Option (List ℕ)
  day_of_week : Option (List ℕ)

/-- Shallow embedding of `add_all_technical_indicators`.  The period
parameters come from the external configuration module.  Error cases are
the pandas argument validations triggered by the source's calls, in source
order: the Bollinger `rolling` window, the RSI `rolling` window (which
also requires `min_periods ≤ window`, rejecting a zero period), and the
three `ewm` spans (each requiring `span ≥ 1`). -/
def add_all_technical_indicators (cfg : IndicatorConfig) (sqrtF : ℚ → ℚ)
    (closes : List ℚ) (volume : Option (List ℚ))
    (tsIndex : Option (List (ℕ × ℕ))) : Except String IndicatorFrame :=
  match add_bollinger_bands sqrtF closes cfg.bollinger_period cfg.bollinger_std_dev with
  | .error e => .error e
  | .ok bb =>
    if cfg.rsi_period < 0 then .error "window must be an integer 0 or greater"
    else if cfg.rsi_period < 1 then .error "min_periods 1 must be less or equal window"
    else if cfg.macd_fast < 1 then .error "span must satisfy span greater or equal 1"
    else if cfg.macd_slow < 1 then .error "span must satisfy span greater or equal 1"
    else if cfg.macd_signal_period < 1 then .error "span must satisfy span greater or equal 1"
    else
      let macdLine := computeMacd cfg.macd_fast cfg.macd_slow closes
      let volSma := volume.map fun vols => rollingMeanQ 20 1 vols
      let volRatio := volume.map fun vols =>
        List.zipWith
          (fun v s => if s ≠ PV.fin 0 then (PV.fin v).div s else .nan)
          vols (rollingMeanQ 20 1 vols)
      .ok
        { close := closes
          bb_middle := bb.bb_middle
          bb_upper := bb.bb_upper
          bb_lower := bb.bb_lower
          bb_percent := bb.bb_percent
          rsi := computeRsi cfg.rsi_period.toNat closes
          macd := macdLine
          macd_signal := ewmMean (2 / ((cfg.macd_signal_period : ℚ) + 1)) macdLine
          volume_sma := volSma
          volume_ratio := volRatio
          price_change_1 := pctChange 1 closes
          price_change_5 := pctChange 5 closes
          volatility := rollingStdQ sqrtF 20 1 closes
          hour := tsIndex.map fun hd => hd.map Prod.fst
          day_of_week := tsIndex.map fun hd => hd.map Prod.snd }

/-- The decimal digit character for `n % 10`. -/
def digitChar (n : ℕ) : Char :=
  if n = 0 then '0' else if n = 1 then '1' else if n = 2 then '2'
  else if n = 3 then '3' else if n = 4 then '4' else if n = 5 then '5'
  else if n = 6 then '6' else if n = 7 then '7' else if n = 8 then '8' else '9'

/-- Exactly `d` decimal digits of `n` (most significant first, leading
zeros kept); renders `n % 10 ^ d`. -/
def padDigits : ℕ → ℕ → List Char
  | 0, _ => []
  | d + 1, n => padDigits d (n / 10) ++ [digitChar (n % 10)]

/-- Fuel-driven base-10 rendering worker for natural numbers. -/
def natDigitsAux : ℕ → ℕ → List Char
  | 0, _ => []
  | fuel + 1, n =>
    if n < 10 then [digitChar n]
    else natDigitsAux fuel (n / 10) ++ [digitChar (n % 10)]

/-- Base-10 rendering of a natural number, no leading zeros. -/
def natDigits (n : ℕ) : List Char := natDigitsAux (n + 1) n

/-- Round a rational to the nearest integer, ties to the even integer
(the rounding used by fixed-precision formatting). -/
def roundHalfEven (q : ℚ) : ℤ :=
  let f := ⌊q⌋
  let r := q - f
  if r < 1 / 2 then f
  else if 1 / 2 < r then f + 1
  else if f % 2 = 0 then f else f + 1

/-- Fixed-point decimal rendering with exactly `d` places after the
decimal point, the embedding of Python string formatting of a price with
a precision of `d` (`sl_price_str` / `tp_price_str` in the source). -/
def fmtFixed (d : ℕ) (x : ℚ) : String :=
  let n := roundHalfEven (x * 10 ^ d)
  let m := n.natAbs
  let signChars : List Char := if n < 0 then ['-'] else []
  if d = 0 then String.mk (signChars ++ natDigits m)
  else String.mk (signChars ++ natDigits (m / 10 ^ d) ++ ['.'] ++ padDigits d (m % 10 ^ d))

/-- Number of characters after the last decimal point of a string
(0 when there is no decimal point). -/
def decimalPlaces (s : String) : ℕ :=
  if '.' ∈ s.data then (s.data.reverse.takeWhile fun c => c ≠ '.').length else 0

/-- One row of the indicator-augmented series as consumed by the trading
logic: every cell is a possibly-NaN number (`Option ℚ`, `none` = NaN).
`has_volume_ratio` records whether the `volume_ratio` column exists at
all; `ts_hour_dow` is `some (hour, dayofweek)` when the row label is a
timestamp. -/
structure IndicatorRow where
  close : Option ℚ
  bb_middle : Option ℚ
  bb_upper : Option ℚ
  bb_lower : Option ℚ
  bb_percent : Option ℚ
  rsi : Option ℚ
  macd : Option ℚ
  macd_signal : Option ℚ
  price_change_1 : Option ℚ
  price_change_5 : Option ℚ
  volatility : Option ℚ
  has_volume_ratio : Bool
  volume_ratio : Option ℚ
  ts_hour_dow : Option (ℕ × ℕ)
deriving DecidableEq

/-- Value to which `prepare_features_for_prediction` resolves one
feature name: the `features` dictionary of the source as a lookup
function, with `none` for NaN and for names absent from the dictionary
(`features.get(name, np.nan)`). -/
def resolve_feature (fc : IndicatorRow) (is_upper_break is_lower_break : Bool)
    (expected_feature_list : List String) (name : String) : Option ℚ :=
  if name = "bb_percent" then fc.bb_percent
  else if name = "rsi" then fc.rsi
  else if name = "macd" then fc.macd
  else if name = "macd_signal" then fc.macd_signal
  else if name = "price_change_1" then fc.price_change_1
  else if name = "price_change_5" then fc.price_change_5
  else if name = "volatility" then fc.volatility
  else if name = "volume_ratio" then
    if "volume_ratio" ∈ expected_feature_list ∧ fc.has_volume_ratio then fc.volume_ratio
    else if "volume_ratio" ∈ expected_feature_list then none
    else none
  else if name = "hour" then fc.ts_hour_dow.map fun p => (p.1 : ℚ)
  else if name = "day_of_week" then fc.ts_hour_dow.map fun p => (p.2 : ℚ)
  else if name = "break_type" then
    if is_upper_break then some 1 else if is_lower_break then some 0 else none
  else if name = "profit_potential" then
    match fc.close, fc.bb_middle with
    | some price_at_decision, some bb_middle_at_decision =>
      if is_upper_break then some ((price_at_decision - bb_middle_at_decision) * 10000)
      else if is_lower_break then some ((bb_middle_at_decision - price_at_decision) * 10000)
      else none
    | _, _ => none
  else none

/-- Shallow embedding of `prepare_features_for_prediction`: resolve every
expected feature name in order; if any resolved value is NaN the function
returns `none` (the source's final `isnull` check), otherwise the ordered
numeric vector. -/
def prepare_features_for_prediction (feature_candle_data : IndicatorRow)
    (is_upper_break is_lower_break : Bool) (expected_feature_list : List String) :
    Option (List ℚ) :=
  let vals := expected_feature_list.map
    (resolve_feature feature_candle_data is_upper_break is_lower_break expected_feature_list)
  if vals.any (fun v => v.isNone) then none
  else some (vals.map fun v => v.getD 0)

/-- The last two rows of a list (`iloc[-2]`, `iloc[-1]`), `none` when the
list has fewer than two rows (the length guard of `get_trade_decision`). -/
def lastTwo : List IndicatorRow → Option (IndicatorRow × IndicatorRow)
  | [] => none
  | [_] => none
  | [a, b] => some (a, b)
  | _ :: b :: c :: t => lastTwo (b :: c :: t)

/-- Continuation of `get_trade_decision` once a breakout has been
detected on the signal candle: build the feature vector from the feature
candle, invoke the injected model (whose raised exception is the `error`
case), and on a prediction of 1 derive direction, raw stop-loss and raw
take-profit and format both.  `fc`/`fm` are the already-guarded close and
central band of the feature candle. -/
def decide_on_breakout (feature_extraction_candle : IndicatorRow) (fc fm : ℚ)
    (is_upper_break is_lower_break : Bool) (predict : List ℚ → Except Unit ℤ)
    (model_features : List String) (pip_location : ℤ) (display_precision : ℕ)
    (sl_pips : ℚ) : Option (String × String × String) :=
  match prepare_features_for_prediction feature_extraction_candle
      is_upper_break is_lower_break model_features with
  | none => none
  | some features_df =>
    match predict features_df with
    | .error _ => none
    | .ok prediction =>
      if prediction = 1 then
        let pip_value : ℚ := (10 : ℚ) ^ pip_location
        let sl_offset := sl_pips * pip_value
        if is_upper_break then
          some ("SELL", fmtFixed display_precision (fc + sl_offset),
            fmtFixed display_precision fm)
        else
          some ("BUY", fmtFixed display_precision (fc - sl_offset),
            fmtFixed display_precision fm)
      else none

/-- Shallow embedding of `get_trade_decision`: require at least two rows,
take the signal candle at offset -2 and the feature candle at offset -1,
return no trade when any critical cell is NaN, classify the breakout on
the signal candle (strictly outside its own band, with the defensive
both-sides check), and continue with `decide_on_breakout`.
`sl_pips` is the externally configured `SL_PIPS`. -/
def get_trade_decision (df_with_indicators : List IndicatorRow)
    (predict : List ℚ → Except Unit ℤ) (model_features : List String)
    (pip_location : ℤ) (display_precision : ℕ) (sl_pips : ℚ) :
    Option (String × String × String) :=
  match lastTwo df_with_indicators with
  | none => none
  | some (signal_eval_candle, feature_extraction_candle) =>
    match signal_eval_candle.close, signal_eval_candle.bb_upper,
        signal_eval_candle.bb_lower with
    | some sc, some su, some slo =>
      match feature_extraction_candle.close, feature_extraction_candle.bb_middle with
      | some fc, some fm =>
        let is_upper_break := decide (sc > su)
        let is_lower_break := decide (sc < slo)
        if (is_upper_break || is_lower_break) && !(is_upper_break && is_lower_break) then
          decide_on_breakout feature_extraction_candle fc fm
            is_upper_break is_lower_break predict model_features
            pip_location display_precision sl_pips
        else none
      | _, _ => none
    | _, _, _ => none

/-- Whether an `Except` value is a success. -/
def exceptIsOk : Except String IndicatorFrame → Bool
  | .ok _ => true
  | .error _ => false

/-- Signal-candle fixture with an upper breakout (close 2, upper band 1,
lower band 0). -/
def rowSigUp : IndicatorRow :=
  { close := some 2, bb_middle := none, bb_upper := some 1, bb_lower := some 0,
    bb_percent := none, rsi := none, macd := none, macd_signal := none,
    price_change_1 := none, price_change_5 := none, volatility := none,
    has_volume_ratio := false, volume_ratio := none, ts_hour_dow := none }

/-- Signal-candle fixture with a lower breakout (close -1, upper band 1,
lower band 0). -/
def rowSigLow : IndicatorRow :=
  { close := some (-1), bb_middle := none, bb_upper := some 1, bb_lower := some 0,
    bb_percent := none, rsi := none, macd := none, macd_signal := none,
    price_change_1 := none, price_change_5 := none, volatility := none,
    has_volume_ratio := false, volume_ratio := none, ts_hour_dow := none }

/-- Feature-candle fixture with defined close (3) and central band (1). -/
def rowFeat : IndicatorRow :=
  { close := some 3, bb_middle := some 1, bb_upper := none, bb_lower := none,
    bb_percent := none, rsi := some 50, macd := none, macd_signal := none,
    price_change_1 := none, price_change_5 := none, volatility := none,
    has_volume_ratio := false, volume_ratio := none, ts_hour_dow := none }

/-- The feature names the source's `features` dictionary can ever hold:
the fixed indicator fields plus the two structural fields. -/
def known_feature_names : List String :=
  ["bb_percent", "rsi", "macd", "macd_signal", "price_change_1", "price_change_5",
   "volatility", "volume_ratio", "hour", "day_of_week", "break_type", "profit_potential"]

/-- Signal-candle fixture whose bands are inverted (upper 0 below lower
2) so that its close 1 satisfies both breakout conditions at once. -/
def rowBoth : IndicatorRow :=
  { close := some 1, bb_middle := none, bb_upper := some 0, bb_lower := some 2,
    bb_percent := none, rsi := none, macd := none, macd_signal := none,
    price_change_1 := none, price_change_5 := none, volatility := none,
    has_volume_ratio := false, volume_ratio := none, ts_hour_dow := none }

section FormattingLemmas

theorem digitChar_ne_dot (n : ℕ) : digitChar n ≠ '.' := by
  unfold digitChar
  repeat' split
  all_goals decide

theorem padDigits_length (d n : ℕ) : (padDigits d n).length = d := by
  induction d generalizing n with
  | zero => rfl
  | succ d ih => simp [padDigits, ih]

theorem mem_padDigits_ne_dot (d n : ℕ) (c : Char) (h : c ∈ padDigits d n) :
    c ≠ '.' := by
  induction d generalizing n with
  | zero => simp [padDigits] at h
  | succ d ih =>
    simp only [padDigits, List.mem_append, List.mem_singleton] at h
    rcases h with h | h
    · exact ih _ h
    · rw [h]; exact digitChar_ne_dot _

theorem mem_natDigitsAux_ne_dot (fuel n : ℕ) (c : Char)
    (h : c ∈ natDigitsAux fuel n) : c ≠ '.' := by
  induction fuel generalizing n with
  | zero => simp [natDigitsAux] at h
  | succ fuel ih =>
    simp only [natDigitsAux] at h
    split at h
    · simp only [List.mem_singleton] at h
      rw [h]; exact digitChar_ne_dot _
    · simp only [List.mem_append, List.mem_singleton] at h
      rcases h with h | h
      · exact ih _ h
      · rw [h]; exact digitChar_ne_dot _

theorem takeWhile_append_stop {p : Char → Bool} {xs : List Char} {y : Char}
    {rest : List Char} (h : ∀ c ∈ xs, p c = true) (hy : p y = false) :
    (xs ++ y :: rest).takeWhile p = xs := by
  induction xs with
  | nil => simp [List.takeWhile_cons, hy]
  | cons a as ih =>
    have ha : p a = true := h a (by simp)
    simp only [List.cons_append, List.takeWhile_cons, ha, if_true]
    rw [ih fun c hc => h c (by simp [hc])]

/-- For a positive precision, `fmtFixed` renders exactly `d` characters
after the decimal point. -/
theorem decimalPlaces_fmtFixed (d : ℕ) (hd : 0 < d) (x : ℚ) :
    decimalPlaces (fmtFixed d x) = d := by
  have hdne : d ≠ 0 := Nat.pos_iff_ne_zero.mp hd
  unfold fmtFixed
  simp only [hdne, if_false]
  set n := roundHalfEven (x * 10 ^ d) with hn
  set sg : List Char := if n < 0 then ['-'] else [] with hsg
  set ipd := natDigits (n.natAbs / 10 ^ d) with hip
  set fpd := padDigits d (n.natAbs % 10 ^ d) with hfp
  have hdata : (String.mk (sg ++ ipd ++ ['.'] ++ fpd)).data
      = sg ++ ipd ++ ['.'] ++ fpd := rfl
  unfold decimalPlaces
  rw [hdata]
  have hmem : '.' ∈ sg ++ ipd ++ ['.'] ++ fpd := by simp
  rw [if_pos hmem]
  have hrev : (sg ++ ipd ++ ['.'] ++ fpd).reverse
      = fpd.reverse ++ '.' :: (ipd.reverse ++ sg.reverse) := by
    simp [List.reverse_append]
  rw [hrev, takeWhile_append_stop, List.length_reverse, hfp, padDigits_length]
  · intro c hc
    rw [List.mem_reverse] at hc
    simpa using mem_padDigits_ne_dot d _ c hc
  · simp

/-- With a precision of 0 the rendering has no decimal point at all, so
it has zero decimal places. -/
theorem decimalPlaces_fmtFixed_zero (x : ℚ) : decimalPlaces (fmtFixed 0 x) = 0 := by
  unfold fmtFixed
  rw [if_pos rfl]
  unfold decimalPlaces
  rw [if_neg]
  intro hmem
  have hdata : (String.mk ((if roundHalfEven (x * 10 ^ 0) < 0 then ['-'] else [])
      ++ natDigits (roundHalfEven (x * 10 ^ 0)).natAbs)).data
      = (if roundHalfEven (x * 10 ^ 0) < 0 then ['-'] else [])
        ++ natDigits (roundHalfEven (x * 10 ^ 0)).natAbs := rfl
  rw [hdata, List.mem_append] at hmem
  rcases hmem with hmem | hmem
  · split at hmem
    · simp at hmem
    · simp at hmem
  · exact mem_natDigitsAux_ne_dot _ _ _ hmem rfl

/-- `fmtFixed` always renders exactly `d` decimal places. -/
theorem decimalPlaces_fmtFixed_eq (d : ℕ) (x : ℚ) :
    decimalPlaces (fmtFixed d x) = d := by
  cases d with
  | zero => exact decimalPlaces_fmtFixed_zero x
  | succ d => exact decimalPlaces_fmtFixed (d + 1) (Nat.succ_pos d) x

end FormattingLemmas

section TradingLogicLemmas

theorem lastTwo_eq_of_getElem (df : List IndicatorRow) (a b : IndicatorRow)
    (h2 : 2 ≤ df.length)
    (ha : df[df.length - 2]? = some a) (hb : df[df.length - 1]? = some b) :
    lastTwo df = some (a, b) := by
  match df with
  | [] => simp at h2
  | [x] => simp at h2
  | [x, y] =>
    simp only [List.length_cons, List.length_nil] at ha hb
    norm_num at ha hb
    rw [ha, hb]
    rfl
  | x :: y :: z :: t =>
    have hstep : lastTwo (x :: y :: z :: t) = lastTwo (y :: z :: t) := rfl
    have hlen : (x :: y :: z :: t).length = (y :: z :: t).length + 1 := rfl
    have h2' : 2 ≤ (y :: z :: t).length := by simp
    have hia : (x :: y :: z :: t).length - 2 = ((y :: z :: t).length - 2) + 1 := by
      simp only [List.length_cons]
      omega
    have hib : (x :: y :: z :: t).length - 1 = ((y :: z :: t).length - 1) + 1 := by
      simp only [List.length_cons]
      omega
    rw [hia, List.getElem?_cons_succ] at ha
    rw [hib, List.getElem?_cons_succ] at hb
    rw [hstep]
    exact lastTwo_eq_of_getElem (y :: z :: t) a b h2' ha hb

/-- Shared unfolding of `get_trade_decision` for a series of length ≥ 2
whose signal- and feature-candle critical cells are all defined: the
decision equals the breakout classification on the signal candle followed
by `decide_on_breakout` on the feature candle. -/
theorem get_trade_decision_unfold
    (df : List IndicatorRow) (signal feat : IndicatorRow)
    (predict : List ℚ → Except Unit ℤ) (model_features : List String)
    (pip_location : ℤ) (display_precision : ℕ) (sl_pips : ℚ)
    (sc su slo fc fm : ℚ)
    (h2 : 2 ≤ df.length)
    (hs : df[df.length - 2]? = some signal)
    (hf : df[df.length - 1]? = some feat)
    (hc : signal.close = some sc) (hu : signal.bb_upper = some su)
    (hl : signal.bb_lower = some slo)
    (hfc : feat.close = some fc) (hfm : feat.bb_middle = some fm) :
    get_trade_decision df predict model_features pip_location display_precision sl_pips
      = if (sc > su ∨ sc < slo) ∧ ¬(sc > su ∧ sc < slo) then
          decide_on_breakout feat fc fm (decide (sc > su)) (decide (sc < slo))
            predict model_features pip_location display_precision sl_pips
        else none := by
  have hlt := lastTwo_eq_of_getElem df signal feat h2 hs hf
  unfold get_trade_decision
  rw [hlt]
  simp only [hc, hu, hl, hfc, hfm]
  by_cases h1 : sc > su <;> by_cases hlo : sc < slo <;>
    simp [h1, hlo]

end TradingLogicLemmas

/-- C2: for a series of length ≥ 2, `get_trade_decision` classifies the
breakout on the second-to-last row (signal candle, offset -2): an upper
breakout exactly when its close is strictly greater than its upper band,
a lower breakout exactly when its close is strictly less than its lower
band; and the continuation receives the last row (feature candle, offset
-1) as the candle whose snapshot feeds the feature builder. -/
theorem C2_signal_and_feature_offsets
    (df : List IndicatorRow) (signal feat : IndicatorRow)
    (predict : List ℚ → Except Unit ℤ) (model_features : List String)
    (pip_location : ℤ) (display_precision : ℕ) (sl_pips : ℚ)
    (sc su slo fc fm : ℚ)
    (h2 : 2 ≤ df.length)
    (hs : df[df.length - 2]? = some signal)
    (hf : df[df.length - 1]? = some feat)
    (hc : signal.close = some sc) (hu : signal.bb_upper = some su)
    (hl : signal.bb_lower = some slo)
    (hfc : feat.close = some fc) (hfm : feat.bb_middle = some fm) :
    lastTwo df = some (signal, feat) ∧
    get_trade_decision df predict model_features pip_location display_precision sl_pips
      = if (sc > su ∨ sc < slo) ∧ ¬(sc > su ∧ sc < slo) then
          decide_on_breakout feat fc fm (decide (sc > su)) (decide (sc < slo))
            predict model_features pip_location display_precision sl_pips
        else none :=
  ⟨lastTwo_eq_of_getElem df signal feat h2 hs hf,
    get_trade_decision_unfold df signal feat predict model_features pip_location
      display_precision sl_pips sc su slo fc fm h2 hs hf hc hu hl hfc hfm⟩

/-- C1: on an upper breakout (signal-candle close strictly above its upper
band) with defined feature-candle close and central band, a complete
feature vector and an injected prediction of 1, `get_trade_decision`
returns direction SELL, a stop-loss of feature close plus
`sl_pips * 10 ^ pip_location` and a take-profit of the feature central
band, both rendered with exactly `display_precision` decimal places; on a
lower breakout it returns BUY with the stop-loss offset subtracted. -/
theorem C1_trade_direction_and_prices
    (df : List IndicatorRow) (signal feat : IndicatorRow)
    (predict : List ℚ → Except Unit ℤ) (model_features : List String)
    (pip_location : ℤ) (display_precision : ℕ) (sl_pips : ℚ)
    (sc su slo fc fm : ℚ)
    (h2 : 2 ≤ df.length)
    (hs : df[df.length - 2]? = some signal)
    (hf : df[df.length - 1]? = some feat)
    (hc : signal.close = some sc) (hu : signal.bb_upper = some su)
    (hl : signal.bb_lower = some slo)
    (hfc : feat.close = some fc) (hfm : feat.bb_middle = some fm)
    (hband : slo ≤ su) :
    (sc > su → ∀ v, prepare_features_for_prediction feat true false model_features = some v →
      predict v = .ok 1 →
      get_trade_decision df predict model_features pip_location display_precision sl_pips
        = some ("SELL", fmtFixed display_precision (fc + sl_pips * (10 : ℚ) ^ pip_location),
            fmtFixed display_precision fm) ∧
      decimalPlaces (fmtFixed display_precision (fc + sl_pips * (10 : ℚ) ^ pip_location))
        = display_precision ∧
      decimalPlaces (fmtFixed display_precision fm) = display_precision) ∧
    (sc < slo → ∀ v, prepare_features_for_prediction feat false true model_features = some v →
      predict v = .ok 1 →
      get_trade_decision df predict model_features pip_location display_precision sl_pips
        = some ("BUY", fmtFixed display_precision (fc - sl_pips * (10 : ℚ) ^ pip_location),
            fmtFixed display_precision fm) ∧
      decimalPlaces (fmtFixed display_precision (fc - sl_pips * (10 : ℚ) ^ pip_location))
        = display_precision ∧
      decimalPlaces (fmtFixed display_precision fm) = display_precision) := by
  have hmain := get_trade_decision_unfold df signal feat predict model_features
    pip_location display_precision sl_pips sc su slo fc fm h2 hs hf hc hu hl hfc hfm
  constructor
  · intro hup v hv hp
    have hnlo : ¬ sc < slo := by
      intro hlo
      exact absurd (lt_trans hlo (lt_of_le_of_lt hband hup)) (lt_irrefl sc)
    refine ⟨?_, decimalPlaces_fmtFixed_eq _ _, decimalPlaces_fmtFixed_eq _ _⟩
    rw [hmain, if_pos ⟨Or.inl hup, fun hb => hnlo hb.2⟩]
    simp only [decide_eq_true hup, decide_eq_false hnlo]
    unfold decide_on_breakout
    rw [hv]
    simp [hp]
  · intro hlo v hv hp
    have hnup : ¬ sc > su := by
      intro hup
      exact absurd (lt_trans hlo (lt_of_le_of_lt hband hup)) (lt_irrefl sc)
    refine ⟨?_, decimalPlaces_fmtFixed_eq _ _, decimalPlaces_fmtFixed_eq _ _⟩
    rw [hmain, if_pos ⟨Or.inr hlo, fun hb => hnup hb.1⟩]
    simp only [decide_eq_true hlo, decide_eq_false hnup]
    unfold decide_on_breakout
    rw [hv]
    simp [hp]

theorem C2_signal_and_feature_offsets_witness :
    lastTwo [rowSigUp, rowFeat] = some (rowSigUp, rowFeat) ∧
    get_trade_decision [rowSigUp, rowFeat] (fun _ => .ok 1) ["break_type"] (-4) 5 20
      = if ((2 : ℚ) > 1 ∨ (2 : ℚ) < 0) ∧ ¬((2 : ℚ) > 1 ∧ (2 : ℚ) < 0) then
          decide_on_breakout rowFeat 3 1 (decide ((2 : ℚ) > 1)) (decide ((2 : ℚ) < 0))
            (fun _ => .ok 1) ["break_type"] (-4) 5 20
        else none :=
  C2_signal_and_feature_offsets [rowSigUp, rowFeat] rowSigUp rowFeat
    (fun _ => .ok 1) ["break_type"] (-4) 5 20 2 1 0 3 1
    (by simp) rfl rfl rfl rfl rfl rfl rfl

theorem C1_trade_direction_and_prices_witness :
    (get_trade_decision [rowSigUp, rowFeat] (fun _ => .ok 1) ["break_type"] (-4) 5 20
      = some ("SELL", fmtFixed 5 ((3 : ℚ) + 20 * (10 : ℚ) ^ (-4 : ℤ)), fmtFixed 5 (1 : ℚ)) ∧
     decimalPlaces (fmtFixed 5 ((3 : ℚ) + 20 * (10 : ℚ) ^ (-4 : ℤ))) = 5 ∧
     decimalPlaces (fmtFixed 5 (1 : ℚ)) = 5) ∧
    (get_trade_decision [rowSigLow, rowFeat] (fun _ => .ok 1) ["break_type"] (-4) 5 20
      = some ("BUY", fmtFixed 5 ((3 : ℚ) - 20 * (10 : ℚ) ^ (-4 : ℤ)), fmtFixed 5 (1 : ℚ)) ∧
     decimalPlaces (fmtFixed 5 ((3 : ℚ) - 20 * (10 : ℚ) ^ (-4 : ℤ))) = 5 ∧
     decimalPlaces (fmtFixed 5 (1 : ℚ)) = 5) := by
  constructor
  · exact (C1_trade_direction_and_prices [rowSigUp, rowFeat] rowSigUp rowFeat
      (fun _ => .ok 1) ["break_type"] (-4) 5 20 2 1 0 3 1
      (by simp) rfl rfl rfl rfl rfl rfl rfl (by norm_num)).1
      (by norm_num) [1] (by rfl) rfl
  · exact (C1_trade_direction_and_prices [rowSigLow, rowFeat] rowSigLow rowFeat
      (fun _ => .ok 1) ["break_type"] (-4) 5 20 (-1) 1 0 3 1
      (by simp) rfl rfl rfl rfl rfl rfl rfl (by norm_num)).2
      (by norm_num) [0] (by rfl) rfl

/-- C4: on a detected breakout with a complete feature vector, an
exception raised by the injected predict function (the `error` case) is
caught and `get_trade_decision` returns the no-trade result; the
exception is never propagated. -/
theorem C4_inference_exception_demoted_to_no_trade
    (df : List IndicatorRow) (signal feat : IndicatorRow)
    (predict : List ℚ → Except Unit ℤ) (model_features : List String)
    (pip_location : ℤ) (display_precision : ℕ) (sl_pips : ℚ)
    (sc su slo fc fm : ℚ) (e : Unit) (v : List ℚ)
    (h2 : 2 ≤ df.length)
    (hs : df[df.length - 2]? = some signal)
    (hf : df[df.length - 1]? = some feat)
    (hc : signal.close = some sc) (hu : signal.bb_upper = some su)
    (hl : signal.bb_lower = some slo)
    (hfc : feat.close = some fc) (hfm : feat.bb_middle = some fm)
    (hbk : (sc > su ∨ sc < slo) ∧ ¬(sc > su ∧ sc < slo))
    (hv : prepare_features_for_prediction feat (decide (sc > su)) (decide (sc < slo))
      model_features = some v)
    (hp : predict v = .error e) :
    get_trade_decision df predict model_features pip_location display_precision sl_pips
      = none := by
  rw [get_trade_decision_unfold df signal feat predict model_features pip_location
    display_precision sl_pips sc su slo fc fm h2 hs hf hc hu hl hfc hfm,
    if_pos hbk]
  unfold decide_on_breakout
  rw [hv]
  simp [hp]

theorem C4_inference_exception_demoted_to_no_trade_witness :
    get_trade_decision [rowSigUp, rowFeat] (fun _ => .error ()) ["break_type"] (-4) 5 20
      = none :=
  C4_inference_exception_demoted_to_no_trade [rowSigUp, rowFeat] rowSigUp rowFeat
    (fun _ => .error ()) ["break_type"] (-4) 5 20 2 1 0 3 1 () [1]
    (by simp) rfl rfl rfl rfl rfl rfl rfl
    (by constructor <;> norm_num) (by rfl) rfl

/-- Shared helper for the fail-closed paths: a breakout whose feature
vector has an unresolvable name yields no feature vector and no trade,
independently of the injected predict function. -/
theorem incomplete_features_no_trade_aux
    (df : List IndicatorRow) (signal feat : IndicatorRow)
    (model_features : List String)
    (pip_location : ℤ) (display_precision : ℕ) (sl_pips : ℚ)
    (sc su slo fc fm : ℚ) (name : String)
    (h2 : 2 ≤ df.length)
    (hs : df[df.length - 2]? = some signal)
    (hf : df[df.length - 1]? = some feat)
    (hc : signal.close = some sc) (hu : signal.bb_upper = some su)
    (hl : signal.bb_lower = some slo)
    (hfc : feat.close = some fc) (hfm : feat.bb_middle = some fm)
    (hbk : (sc > su ∨ sc < slo) ∧ ¬(sc > su ∧ sc < slo))
    (hmem : name ∈ model_features)
    (hres : resolve_feature feat (decide (sc > su)) (decide (sc < slo))
      model_features name = none) :
    prepare_features_for_prediction feat (decide (sc > su)) (decide (sc < slo))
      model_features = none ∧
    ∀ predict : List ℚ → Except Unit ℤ,
      get_trade_decision df predict model_features pip_location display_precision sl_pips
        = none := by
  have hprep : prepare_features_for_prediction feat (decide (sc > su)) (decide (sc < slo))
      model_features = none := by
    unfold prepare_features_for_prediction
    have hany : (model_features.map (resolve_feature feat (decide (sc > su))
        (decide (sc < slo)) model_features)).any (fun v => v.isNone) = true := by
      rw [List.any_eq_true]
      exact ⟨resolve_feature feat (decide (sc > su)) (decide (sc < slo))
        model_features name, List.mem_map_of_mem _ hmem, by rw [hres]; rfl⟩
    rw [if_pos hany]
  refine ⟨hprep, fun predict => ?_⟩
  rw [get_trade_decision_unfold df signal feat predict model_features pip_location
    display_precision sl_pips sc su slo fc fm h2 hs hf hc hu hl hfc hfm,
    if_pos hbk]
  unfold decide_on_breakout
  rw [hprep]

/-- C5: on a detected breakout, if some expected feature name resolves to
an undefined value on the feature candle, the feature builder returns no
vector, and `get_trade_decision` returns the no-trade result for every
injected predict function (so the model is never consulted and no default
is substituted). -/
theorem C5_incomplete_features_no_trade
    (df : List IndicatorRow) (signal feat : IndicatorRow)
    (model_features : List String)
    (pip_location : ℤ) (display_precision : ℕ) (sl_pips : ℚ)
    (sc su slo fc fm : ℚ) (name : String)
    (h2 : 2 ≤ df.length)
    (hs : df[df.length - 2]? = some signal)
    (hf : df[df.length - 1]? = some feat)
    (hc : signal.close = some sc) (hu : signal.bb_upper = some su)
    (hl : signal.bb_lower = some slo)
    (hfc : feat.close = some fc) (hfm : feat.bb_middle = some fm)
    (hbk : (sc > su ∨ sc < slo) ∧ ¬(sc > su ∧ sc < slo))
    (hmem : name ∈ model_features)
    (hres : resolve_feature feat (decide (sc > su)) (decide (sc < slo))
      model_features name = none) :
    prepare_features_for_prediction feat (decide (sc > su)) (decide (sc < slo))
      model_features = none ∧
    ∀ predict : List ℚ → Except Unit ℤ,
      get_trade_decision df predict model_features pip_location display_precision sl_pips
        = none :=
  incomplete_features_no_trade_aux df signal feat model_features pip_location
    display_precision sl_pips sc su slo fc fm name h2 hs hf hc hu hl hfc hfm
    hbk hmem hres

theorem C5_incomplete_features_no_trade_witness :
    prepare_features_for_prediction rowFeat (decide ((2 : ℚ) > 1)) (decide ((2 : ℚ) < 0))
      ["rsi", "macd"] = none ∧
    get_trade_decision [rowSigUp, rowFeat] (fun _ => .ok 1) ["rsi", "macd"] (-4) 5 20
      = none := by
  have h := C5_incomplete_features_no_trade [rowSigUp, rowFeat] rowSigUp rowFeat
    ["rsi", "macd"] (-4) 5 20 2 1 0 3 1 "macd"
    (by simp) rfl rfl rfl rfl rfl rfl rfl
    (by constructor <;> norm_num) (by simp) rfl
  exact ⟨h.1, h.2 _⟩

/-- C10: an expected feature name outside the known indicator fields and
the two structural fields resolves to an undefined value, which
invalidates the whole vector: the feature builder returns no vector and
`get_trade_decision` returns the no-trade result for every injected
predict function (unknown names fail closed, with no error and no
default). -/
theorem C10_unknown_feature_name_fails_closed
    (df : List IndicatorRow) (signal feat : IndicatorRow)
    (model_features : List String)
    (pip_location : ℤ) (display_precision : ℕ) (sl_pips : ℚ)
    (sc su slo fc fm : ℚ) (name : String)
    (h2 : 2 ≤ df.length)
    (hs : df[df.length - 2]? = some signal)
    (hf : df[df.length - 1]? = some feat)
    (hc : signal.close = some sc) (hu : signal.bb_upper = some su)
    (hl : signal.bb_lower = some slo)
    (hfc : feat.close = some fc) (hfm : feat.bb_middle = some fm)
    (hbk : (sc > su ∨ sc < slo) ∧ ¬(sc > su ∧ sc < slo))
    (hmem : name ∈ model_features)
    (hunk : name ∉ known_feature_names) :
    resolve_feature feat (decide (sc > su)) (decide (sc < slo)) model_features name
      = none ∧
    prepare_features_for_prediction feat (decide (sc > su)) (decide (sc < slo))
      model_features = none ∧
    ∀ predict : List ℚ → Except Unit ℤ,
      get_trade_decision df predict model_features pip_location display_precision sl_pips
        = none := by
  simp only [known_feature_names, List.mem_cons, List.not_mem_nil, or_false,
    not_or] at hunk
  obtain ⟨n1, n2, n3, n4, n5, n6, n7, n8, n9, n10, n11, n12⟩ := hunk
  have hres : resolve_feature feat (decide (sc > su)) (decide (sc < slo))
      model_features name = none := by
    unfold resolve_feature
    rw [if_neg n1, if_neg n2, if_neg n3, if_neg n4, if_neg n5, if_neg n6, if_neg n7,
      if_neg n8, if_neg n9, if_neg n10, if_neg n11, if_neg n12]
  have h := incomplete_features_no_trade_aux df signal feat model_features pip_location
    display_precision sl_pips sc su slo fc fm name h2 hs hf hc hu hl hfc hfm hbk hmem hres
  exact ⟨hres, h.1, h.2⟩

theorem C10_unknown_feature_name_fails_closed_witness :
    resolve_feature rowFeat (decide ((2 : ℚ) > 1)) (decide ((2 : ℚ) < 0))
      ["rsi", "spread"] "spread" = none ∧
    prepare_features_for_prediction rowFeat (decide ((2 : ℚ) > 1)) (decide ((2 : ℚ) < 0))
      ["rsi", "spread"] = none ∧
    get_trade_decision [rowSigUp, rowFeat] (fun _ => .ok 1) ["rsi", "spread"] (-4) 5 20
      = none := by
  have h := C10_unknown_feature_name_fails_closed [rowSigUp, rowFeat] rowSigUp rowFeat
    ["rsi", "spread"] (-4) 5 20 2 1 0 3 1 "spread"
    (by simp) rfl rfl rfl rfl rfl rfl rfl
    (by constructor <;> norm_num) (by simp) (by simp [known_feature_names])
  exact ⟨h.1, h.2.1, h.2.2 _⟩

/-- C8: with defined feature-candle close and central band,
`profit_potential` resolves to `(close - central_band) * 10000` for an
upper breakout and `(central_band - close) * 10000` for a lower breakout,
so flipping the breakout polarity exactly negates it. -/
theorem C8_profit_potential_sign_flip
    (fc : IndicatorRow) (price mid : ℚ) (expected : List String)
    (hc : fc.close = some price) (hm : fc.bb_middle = some mid) :
    resolve_feature fc true false expected "profit_potential"
      = some ((price - mid) * 10000) ∧
    resolve_feature fc false true expected "profit_potential"
      = some ((mid - price) * 10000) ∧
    (mid - price) * 10000 = -((price - mid) * 10000) := by
  refine ⟨?_, ?_, by ring⟩ <;>
  · unfold resolve_feature
    simp [hc, hm]

theorem C8_profit_potential_sign_flip_witness :
    resolve_feature rowFeat true false ["profit_potential"] "profit_potential"
      = some (((3 : ℚ) - 1) * 10000) ∧
    resolve_feature rowFeat false true ["profit_potential"] "profit_potential"
      = some (((1 : ℚ) - 3) * 10000) ∧
    ((1 : ℚ) - 3) * 10000 = -(((3 : ℚ) - 1) * 10000) :=
  C8_profit_potential_sign_flip rowFeat 3 1 ["profit_potential"] rfl rfl

section IndicatorLemmas

theorem windowAt_length (xs : List ℚ) (w i : ℕ) (hi : i < xs.length) :
    (windowAt xs w i).length = min (i + 1) w := by
  unfold windowAt
  rw [List.length_drop, List.length_take]
  omega

theorem getElem?_rollingMeanQ (w m : ℕ) (xs : List ℚ) (i : ℕ) (hi : i < xs.length) :
    (rollingMeanQ w m xs)[i]? =
      some (if m ≤ (windowAt xs w i).length ∧ 1 ≤ (windowAt xs w i).length then
        PV.fin ((windowAt xs w i).sum / ((windowAt xs w i).length : ℚ)) else .nan) := by
  unfold rollingMeanQ
  rw [List.getElem?_map, List.getElem?_range hi]
  rfl

theorem getElem?_rollingStdQ (sqrtF : ℚ → ℚ) (w m : ℕ) (xs : List ℚ) (i : ℕ)
    (hi : i < xs.length) :
    (rollingStdQ sqrtF w m xs)[i]? =
      some (if m ≤ (windowAt xs w i).length ∧ 2 ≤ (windowAt xs w i).length then
        PV.fin (sqrtF (svar (windowAt xs w i))) else .nan) := by
  unfold rollingStdQ
  rw [List.getElem?_map, List.getElem?_range hi]
  rfl

theorem length_rollingMeanQ (w m : ℕ) (xs : List ℚ) :
    (rollingMeanQ w m xs).length = xs.length := by
  simp [rollingMeanQ]

theorem length_rollingStdQ (sqrtF : ℚ → ℚ) (w m : ℕ) (xs : List ℚ) :
    (rollingStdQ sqrtF w m xs).length = xs.length := by
  simp [rollingStdQ]

/-- Inversion of a successful indicator run: every pandas argument
validation passed and the output columns are the source's computations. -/
theorem add_all_ok_inv {cfg : IndicatorConfig} {sqrtF : ℚ → ℚ} {closes : List ℚ}
    {volume : Option (List ℚ)} {tsIndex : Option (List (ℕ × ℕ))}
    {frame : IndicatorFrame}
    (h : add_all_technical_indicators cfg sqrtF closes volume tsIndex = .ok frame) :
    0 ≤ cfg.bollinger_period ∧ 1 ≤ cfg.rsi_period ∧ 1 ≤ cfg.macd_fast ∧
    1 ≤ cfg.macd_slow ∧ 1 ≤ cfg.macd_signal_period ∧
    frame.rsi = computeRsi cfg.rsi_period.toNat closes ∧
    frame.volatility = rollingStdQ sqrtF 20 1 closes := by
  unfold add_all_technical_indicators add_bollinger_bands at h
  by_cases hb : cfg.bollinger_period < 0
  · rw [if_pos hb] at h
    simp at h
  · rw [if_neg hb] at h
    simp only at h
    by_cases h1 : cfg.rsi_period < 0
    · rw [if_pos h1] at h; simp at h
    · rw [if_neg h1] at h
      by_cases h2 : cfg.rsi_period < 1
      · rw [if_pos h2] at h; simp at h
      · rw [if_neg h2] at h
        by_cases h3 : cfg.macd_fast < 1
        · rw [if_pos h3] at h; simp at h
        · rw [if_neg h3] at h
          by_cases h4 : cfg.macd_slow < 1
          · rw [if_pos h4] at h; simp at h
          · rw [if_neg h4] at h
            by_cases h5 : cfg.macd_signal_period < 1
            · rw [if_pos h5] at h; simp at h
            · rw [if_neg h5] at h
              simp only [Except.ok.injEq] at h
              subst h
              refine ⟨by omega, by omega, by omega, by omega, by omega, rfl, rfl⟩

/-- Completeness direction of the validations: a configuration with
non-negative band period and positive remaining periods runs to success. -/
theorem add_all_ok_of_valid (cfg : IndicatorConfig) (sqrtF : ℚ → ℚ)
    (closes : List ℚ) (volume : Option (List ℚ)) (tsIndex : Option (List (ℕ × ℕ)))
    (hb : 0 ≤ cfg.bollinger_period) (h1 : 1 ≤ cfg.rsi_period)
    (h3 : 1 ≤ cfg.macd_fast) (h4 : 1 ≤ cfg.macd_slow)
    (h5 : 1 ≤ cfg.macd_signal_period) :
    ∃ frame, add_all_technical_indicators cfg sqrtF closes volume tsIndex
      = .ok frame ∧ frame.rsi = computeRsi cfg.rsi_period.toNat closes ∧
      frame.volatility = rollingStdQ sqrtF 20 1 closes := by
  unfold add_all_technical_indicators add_bollinger_bands
  rw [if_neg (by omega : ¬ cfg.bollinger_period < 0)]
  simp only
  rw [if_neg (by omega : ¬ cfg.rsi_period < 0),
    if_neg (by omega : ¬ cfg.rsi_period < 1),
    if_neg (by omega : ¬ cfg.macd_fast < 1),
    if_neg (by omega : ¬ cfg.macd_slow < 1),
    if_neg (by omega : ¬ cfg.macd_signal_period < 1)]
  exact ⟨_, rfl, rfl, rfl⟩

end IndicatorLemmas

/-- C6 (amended): the engine fails before producing an indicator sequence
whenever the band period is negative, the oscillator period is ≤ 0, or
any trend period is ≤ 0; however a band period of exactly 0 is accepted
(the rolling window validation allows 0) and silently yields undefined
band columns instead of failing, so the original claim does not hold for
that one configuration. -/
theorem C6_nonpositive_periods_error
    (cfg : IndicatorConfig) (sqrtF : ℚ → ℚ) (closes : List ℚ)
    (volume : Option (List ℚ)) (tsIndex : Option (List (ℕ × ℕ)))
    (hbad : cfg.bollinger_period < 0 ∨ cfg.rsi_period ≤ 0 ∨ cfg.macd_fast ≤ 0 ∨
      cfg.macd_slow ≤ 0 ∨ cfg.macd_signal_period ≤ 0) :
    ∃ msg, add_all_technical_indicators cfg sqrtF closes volume tsIndex
      = .error msg := by
  cases hr : add_all_technical_indicators cfg sqrtF closes volume tsIndex with
  | error e => exact ⟨e, rfl⟩
  | ok frame =>
    have hinv := add_all_ok_inv hr
    omega

theorem C6_nonpositive_periods_error_witness :
    ∃ msg, add_all_technical_indicators ⟨20, 2, 0, 12, 26, 9⟩ id [1, 2, 3] none none
      = .error msg :=
  C6_nonpositive_periods_error ⟨20, 2, 0, 12, 26, 9⟩ id [1, 2, 3] none none
    (by norm_num)

/-- C6 counterexample: a configuration whose band period is 0 (hence ≤ 0)
is not rejected — the engine returns an indicator sequence, contradicting
the claim that every non-positive period fails with a configuration
error. -/
theorem C6_zero_band_period_accepted :
    exceptIsOk
      (add_all_technical_indicators ⟨0, 2, 14, 12, 26, 9⟩ id [1, 2, 3] none none)
      = true ∧
    (⟨0, 2, 14, 12, 26, 9⟩ : IndicatorConfig).bollinger_period ≤ 0 := by
  constructor
  · obtain ⟨frame, hok, -, -⟩ := add_all_ok_of_valid ⟨0, 2, 14, 12, 26, 9⟩ id
      [1, 2, 3] none none (by norm_num) (by norm_num) (by norm_num) (by norm_num)
      (by norm_num)
    rw [hok]
    rfl
  · norm_num

/-- C7 (amended): the volatility column (rolling 20-candle sample
standard deviation of the close with a minimum of one observation) is
defined on every row from index 1 onward; it is NOT defined on the very
first row, because the sample standard deviation of a single observation
is undefined, so the original "including the very first row" fails. -/
theorem C7_volatility_defined_from_second_row
    (cfg : IndicatorConfig) (sqrtF : ℚ → ℚ) (closes : List ℚ)
    (volume : Option (List ℚ)) (tsIndex : Option (List (ℕ × ℕ)))
    (frame : IndicatorFrame)
    (hok : add_all_technical_indicators cfg sqrtF closes volume tsIndex = .ok frame)
    (i : ℕ) (h1 : 1 ≤ i) (hi : i < closes.length) :
    ∃ q, frame.volatility[i]? = some (.fin q) := by
  obtain ⟨-, -, -, -, -, -, hvol⟩ := add_all_ok_inv hok
  rw [hvol, getElem?_rollingStdQ sqrtF 20 1 closes i hi]
  have hlen := windowAt_length closes 20 i hi
  rw [if_pos ⟨by omega, by omega⟩]
  exact ⟨_, rfl⟩

theorem C7_volatility_defined_from_second_row_witness :
    ∃ frame q, add_all_technical_indicators ⟨20, 2, 14, 12, 26, 9⟩ id [1, 2] none none
      = .ok frame ∧ frame.volatility[1]? = some (.fin q) := by
  obtain ⟨frame, hok, -, -⟩ := add_all_ok_of_valid ⟨20, 2, 14, 12, 26, 9⟩ id
    [1, 2] none none (by norm_num) (by norm_num) (by norm_num) (by norm_num)
    (by norm_num)
  obtain ⟨q, hq⟩ := C7_volatility_defined_from_second_row ⟨20, 2, 14, 12, 26, 9⟩ id
    [1, 2] none none frame hok 1 (by norm_num) (by norm_num)
  exact ⟨frame, q, hok, hq⟩

/-- C7 counterexample: on the non-empty series `[1]` the volatility of
the first (and only) row is NaN, not a defined value — the sample
standard deviation of a single observation is undefined, contradicting
"defined on every row, including the very first row". -/
theorem C7_first_row_volatility_nan :
    Except.map (fun fr => fr.volatility)
      (add_all_technical_indicators ⟨20, 2, 14, 12, 26, 9⟩ id [1] none none)
      = .ok [PV.nan] := by
  obtain ⟨frame, hok, -, hvol⟩ := add_all_ok_of_valid ⟨20, 2, 14, 12, 26, 9⟩ id
    [1] none none (by norm_num) (by norm_num) (by norm_num) (by norm_num)
    (by norm_num)
  rw [hok]
  simp only [Except.map, hvol]
  rfl

section BollingerLemmas

theorem PV.add_nan_right (a : PV) : a.add .nan = .nan := by cases a <;> rfl

theorem add_bollinger_ok_inv {sqrtF : ℚ → ℚ} {closes : List ℚ} {period : ℤ}
    {std_dev : ℚ} {bb : BollingerFrame}
    (h : add_bollinger_bands sqrtF closes period std_dev = .ok bb) :
    0 ≤ period ∧
    bb.bb_upper = List.zipWith (fun m s => m.add (s.mul (.fin std_dev)))
      (rollingMeanQ period.toNat period.toNat closes)
      (rollingStdQ sqrtF period.toNat period.toNat closes) ∧
    bb.bb_lower = List.zipWith (fun m s => m.sub (s.mul (.fin std_dev)))
      (rollingMeanQ period.toNat period.toNat closes)
      (rollingStdQ sqrtF period.toNat period.toNat closes) := by
  unfold add_bollinger_bands at h
  by_cases hp : period < 0
  · rw [if_pos hp] at h; simp at h
  · rw [if_neg hp] at h
    simp only [Except.ok.injEq] at h
    subst h
    exact ⟨by omega, rfl, rfl⟩

theorem svar_nonneg (win : List ℚ) (h2 : 2 ≤ win.length) : 0 ≤ svar win := by
  unfold svar
  apply div_nonneg
  · apply List.sum_nonneg
    intro x hx
    obtain ⟨y, _, rfl⟩ := List.mem_map.mp hx
    positivity
  · have h2q : (2 : ℚ) ≤ (win.length : ℚ) := by exact_mod_cast h2
    linarith

end BollingerLemmas

/-- C9: breakout classification is mutually exclusive.  (1) If a signal
candle somehow satisfied both breakout conditions, `get_trade_decision`
defensively returns no trade.  (2) By construction of the bands, whenever
upper and lower band are both defined they satisfy `lower ≤ upper`
(central band plus/minus a non-negative standard-deviation term, for any
non-negative multiplier and any square root that is non-negative on
non-negative inputs).  (3) With ordered bands the simultaneous case is
impossible. -/
theorem C9_breakout_mutually_exclusive :
    (∀ (df : List IndicatorRow) (signal feat : IndicatorRow)
      (predict : List ℚ → Except Unit ℤ) (model_features : List String)
      (pip_location : ℤ) (display_precision : ℕ) (sl_pips : ℚ) (sc su slo fc fm : ℚ),
      2 ≤ df.length → df[df.length - 2]? = some signal →
      df[df.length - 1]? = some feat →
      signal.close = some sc → signal.bb_upper = some su →
      signal.bb_lower = some slo →
      feat.close = some fc → feat.bb_middle = some fm →
      sc > su → sc < slo →
      get_trade_decision df predict model_features pip_location display_precision
        sl_pips = none) ∧
    (∀ (sqrtF : ℚ → ℚ) (closes : List ℚ) (period : ℤ) (std_dev : ℚ)
      (bb : BollingerFrame),
      add_bollinger_bands sqrtF closes period std_dev = .ok bb →
      0 ≤ std_dev → (∀ q, 0 ≤ q → 0 ≤ sqrtF q) →
      ∀ (i : ℕ) (u l : ℚ), bb.bb_upper[i]? = some (PV.fin u) →
      bb.bb_lower[i]? = some (PV.fin l) → l ≤ u) ∧
    (∀ sc su slo : ℚ, slo ≤ su → ¬(sc > su ∧ sc < slo)) := by
  refine ⟨?_, ?_, ?_⟩
  · intro df signal feat predict model_features pip_location display_precision
      sl_pips sc su slo fc fm h2 hs hf hc hu hl hfc hfm hup hlo
    rw [get_trade_decision_unfold df signal feat predict model_features pip_location
      display_precision sl_pips sc su slo fc fm h2 hs hf hc hu hl hfc hfm]
    exact if_neg fun hcond => hcond.2 ⟨hup, hlo⟩
  · intro sqrtF closes period std_dev bb hok hk hsq i u l hu hl
    obtain ⟨-, hupper, hlower⟩ := add_bollinger_ok_inv hok
    rw [hupper, List.getElem?_zipWith_eq_some] at hu
    rw [hlower, List.getElem?_zipWith_eq_some] at hl
    obtain ⟨mu, su', hmu, hsu, hequ⟩ := hu
    obtain ⟨ml, sl', hml, hsl, heql⟩ := hl
    rw [hmu] at hml
    rw [hsu] at hsl
    injection hml with hml
    injection hsl with hsl
    subst hml hsl
    have hi : i < closes.length := by
      have h1 : i < (rollingMeanQ period.toNat period.toNat closes).length :=
        (List.getElem?_eq_some.mp hmu).1
      rwa [length_rollingMeanQ] at h1
    rw [getElem?_rollingStdQ sqrtF period.toNat period.toNat closes i hi] at hsu
    injection hsu with hsu
    by_cases hg : period.toNat ≤ (windowAt closes period.toNat i).length ∧
        2 ≤ (windowAt closes period.toNat i).length
    · rw [if_pos hg] at hsu
      subst hsu
      have hs0 : 0 ≤ sqrtF (svar (windowAt closes period.toNat i)) :=
        hsq _ (svar_nonneg _ hg.2)
      set s := sqrtF (svar (windowAt closes period.toNat i)) with hsdef
      have hmulk : (PV.fin s).mul (.fin std_dev) = .fin (s * std_dev) := rfl
      rw [hmulk] at hequ heql
      cases mu with
      | nan => simp [PV.add, PV.sub, PV.neg] at hequ
      | inf => simp [PV.add, PV.sub, PV.neg] at hequ
      | ninf => simp [PV.add, PV.sub, PV.neg] at hequ
      | fin a =>
        have hequ' : a + s * std_dev = u := by
          have : PV.fin (a + s * std_dev) = PV.fin u := hequ
          injection this
        have heql' : a + -(s * std_dev) = l := by
          have : PV.fin (a + -(s * std_dev)) = PV.fin l := heql
          injection this
        have hmul0 : 0 ≤ s * std_dev := mul_nonneg hs0 hk
        linarith
    · rw [if_neg hg] at hsu
      subst hsu
      rw [PV.mul] at hequ
      rw [PV.add_nan_right] at hequ
      cases hequ
  · intro sc su slo hband ⟨hup, hlo⟩
    exact absurd (lt_trans hlo (lt_of_le_of_lt hband hup)) (lt_irrefl sc)

theorem C9_breakout_mutually_exclusive_witness :
    get_trade_decision [rowBoth, rowFeat] (fun _ => .ok 1) ["break_type"] (-4) 5 20
      = none ∧
    (∃ bb : BollingerFrame,
      add_bollinger_bands (fun _ => (0 : ℚ)) [0, 0] 2 0 = .ok bb ∧
      bb.bb_upper[1]? = some (PV.fin 0) ∧ bb.bb_lower[1]? = some (PV.fin 0) ∧
      (0 : ℚ) ≤ 0) ∧
    ¬((5 : ℚ) > 1 ∧ (5 : ℚ) < 0) := by
  refine ⟨?_, ?_, ?_⟩
  · exact C9_breakout_mutually_exclusive.1 [rowBoth, rowFeat] rowBoth rowFeat
      (fun _ => .ok 1) ["break_type"] (-4) 5 20 1 0 2 3 1
      (by simp) rfl rfl rfl rfl rfl rfl rfl (by norm_num) (by norm_num)
  · obtain ⟨bb, hok⟩ : ∃ bb, add_bollinger_bands (fun _ => (0 : ℚ)) [0, 0] 2 0
        = .ok bb := by
      unfold add_bollinger_bands
      rw [if_neg (by norm_num : ¬ (2 : ℤ) < 0)]
      exact ⟨_, rfl⟩
    obtain ⟨-, hupper, hlower⟩ := add_bollinger_ok_inv hok
    have htn : ((2 : ℤ).toNat) = 2 := rfl
    rw [htn] at hupper hlower
    have hi : (1 : ℕ) < ([0, 0] : List ℚ).length := by norm_num
    have hwin : windowAt [0, 0] 2 1 = [0, 0] := rfl
    have hmid : (rollingMeanQ 2 2 [0, 0])[1]? = some (PV.fin 0) := by
      rw [getElem?_rollingMeanQ 2 2 [0, 0] 1 hi, hwin]
      norm_num
    have hsd : (rollingStdQ (fun _ => (0 : ℚ)) 2 2 [0, 0])[1]? = some (PV.fin 0) := by
      rw [getElem?_rollingStdQ (fun _ => (0 : ℚ)) 2 2 [0, 0] 1 hi, hwin]
      norm_num [svar]
    have hu : bb.bb_upper[1]? = some (PV.fin 0) := by
      rw [hupper, List.getElem?_zipWith, hmid, hsd]
      norm_num [PV.add, PV.mul]
    have hl : bb.bb_lower[1]? = some (PV.fin 0) := by
      rw [hlower, List.getElem?_zipWith, hmid, hsd]
      norm_num [PV.sub, PV.add, PV.neg, PV.mul]
    exact ⟨bb, hok, hu, hl,
      C9_breakout_mutually_exclusive.2.1 (fun _ => (0 : ℚ)) [0, 0] 2 0 bb hok
        (le_refl 0) (fun q _ => le_refl 0) 1 0 0 hu hl⟩
  · exact C9_breakout_mutually_exclusive.2.2 5 1 0 (by norm_num)

section RsiLemmas

theorem length_diffQ (xs : List ℚ) : (diffQ xs).length = xs.length := by
  cases xs with
  | nil => rfl
  | cons x t => simp [diffQ, List.length_zipWith]

theorem length_rollingMeanPV (w m : ℕ) (xs : List PV) :
    (rollingMeanPV w m xs).length = xs.length := by
  simp [rollingMeanPV]

theorem getElem?_rollingMeanPV (w m : ℕ) (xs : List PV) (i : ℕ) (hi : i < xs.length) :
    (rollingMeanPV w m xs)[i]? =
      some (if m ≤ (((xs.take (i + 1)).drop (i + 1 - w)).filter
          (fun v => !v.isNan)).length ∧
        1 ≤ (((xs.take (i + 1)).drop (i + 1 - w)).filter (fun v => !v.isNan)).length
      then (( ((xs.take (i + 1)).drop (i + 1 - w)).filter (fun v => !v.isNan)).foldr
          PV.add (.fin 0)).div
        (.fin ((((xs.take (i + 1)).drop (i + 1 - w)).filter
          (fun v => !v.isNan)).length : ℚ))
      else .nan) := by
  unfold rollingMeanPV
  rw [List.getElem?_map, List.getElem?_range hi]
  rfl

theorem getElem?_diffQ_zero (xs : List ℚ) (h : 0 < xs.length) :
    (diffQ xs)[0]? = some .nan := by
  cases xs with
  | nil => simp at h
  | cons x t => simp [diffQ]

theorem getElem?_diffQ_succ (xs : List ℚ) (j : ℕ) (a b : ℚ)
    (ha : xs[j]? = some a) (hb : xs[j + 1]? = some b) :
    (diffQ xs)[j + 1]? = some (.fin (b - a)) := by
  cases xs with
  | nil => simp at ha
  | cons x t =>
    have hb' : t[j]? = some b := by rwa [List.getElem?_cons_succ] at hb
    simp only [diffQ, List.getElem?_cons_succ]
    rw [List.getElem?_zipWith, ha, hb']

theorem mem_diffQ_nan_or_fin (xs : List ℚ) (v : PV) (hv : v ∈ diffQ xs) :
    v = .nan ∨ ∃ q, v = .fin q := by
  cases xs with
  | nil => simp [diffQ] at hv
  | cons x t =>
    simp only [diffQ, List.mem_cons] at hv
    rcases hv with hv | hv
    · exact Or.inl hv
    · obtain ⟨i, hi⟩ := List.mem_iff_getElem?.mp hv
      rw [List.getElem?_zipWith] at hi
      right
      cases h1 : (x :: t)[i]? with
      | none => rw [h1] at hi; simp at hi
      | some a =>
        cases h2 : t[i]? with
        | none => rw [h1, h2] at hi; simp at hi
        | some b =>
          rw [h1, h2] at hi
          simp only [Option.some.injEq] at hi
          exact ⟨b - a, hi.symm⟩

theorem foldr_add_fin_nonneg (l : List PV)
    (h : ∀ v ∈ l, ∃ q, v = .fin q ∧ 0 ≤ q) :
    ∃ s, l.foldr PV.add (.fin 0) = .fin s ∧ 0 ≤ s := by
  induction l with
  | nil => exact ⟨0, rfl, le_refl 0⟩
  | cons a t ih =>
    obtain ⟨s, hs, hs0⟩ := ih fun v hv => h v (List.mem_cons_of_mem a hv)
    obtain ⟨q, hq, hq0⟩ := h a (List.mem_cons_self a t)
    refine ⟨q + s, ?_, by linarith⟩
    simp only [List.foldr_cons, hs, hq]
    rfl

theorem foldr_add_fin_zero (l : List PV) (h : ∀ v ∈ l, v = .fin 0) :
    l.foldr PV.add (.fin 0) = .fin 0 := by
  induction l with
  | nil => rfl
  | cons a t ih =>
    have ha := h a (List.mem_cons_self a t)
    have ht := ih fun v hv => h v (List.mem_cons_of_mem a hv)
    simp only [List.foldr_cons, ht, ha]
    show PV.fin (0 + 0) = PV.fin 0
    norm_num

theorem foldr_add_fin_pos (l : List PV)
    (h : ∀ v ∈ l, ∃ q, v = .fin q ∧ 0 ≤ q)
    (hpos : ∃ v ∈ l, ∃ q, v = .fin q ∧ 0 < q) :
    ∃ s, l.foldr PV.add (.fin 0) = .fin s ∧ 0 < s := by
  induction l with
  | nil => simp at hpos
  | cons a t ih =>
    obtain ⟨q, hq, hq0⟩ := h a (List.mem_cons_self a t)
    obtain ⟨v, hvmem, qv, hqv, hqv0⟩ := hpos
    rcases List.mem_cons.mp hvmem with hva | hvt
    · obtain ⟨s, hs, hs0⟩ := foldr_add_fin_nonneg t
        fun v hv => h v (List.mem_cons_of_mem a hv)
      refine ⟨q + s, ?_, ?_⟩
      · simp only [List.foldr_cons, hs, hq]; rfl
      · have : qv = q := by rw [hva] at hqv; rw [hqv] at hq; injection hq
        linarith [this ▸ hqv0]
    · obtain ⟨s, hs, hs0⟩ := ih (fun v hv => h v (List.mem_cons_of_mem a hv))
        ⟨v, hvt, qv, hqv, hqv0⟩
      refine ⟨q + s, ?_, by linarith⟩
      simp only [List.foldr_cons, hs, hq]; rfl

theorem fpos_fin_nonneg (d : PV) (hd : d = .nan ∨ ∃ q, d = .fin q) :
    ∃ q, (if PV.ltb (.fin 0) d then d else .fin 0) = .fin q ∧ 0 ≤ q := by
  rcases hd with rfl | ⟨q, rfl⟩
  · exact ⟨0, rfl, le_refl 0⟩
  · by_cases hq : (0 : ℚ) < q
    · refine ⟨q, ?_, le_of_lt hq⟩
      have hb : PV.ltb (.fin 0) (.fin q) = true := by
        simp [PV.ltb, hq]
      rw [if_pos hb]
    · refine ⟨0, ?_, le_refl 0⟩
      have hb : PV.ltb (.fin 0) (.fin q) = false := by
        simp [PV.ltb, hq]
      simp [hb]

theorem fpos_of_pos (q : ℚ) (hq : 0 < q) :
    (if PV.ltb (.fin 0) (.fin q) then PV.fin q else .fin 0) = .fin q := by
  have hb : PV.ltb (.fin 0) (.fin q) = true := by simp [PV.ltb, hq]
  rw [if_pos hb]

theorem fneg_neg_fin_nonneg (d : PV) (hd : d = .nan ∨ ∃ q, d = .fin q) :
    ∃ q, PV.neg (if PV.ltb d (.fin 0) then d else .fin 0) = .fin q ∧ 0 ≤ q := by
  rcases hd with rfl | ⟨q, rfl⟩
  · exact ⟨-0, rfl, by norm_num⟩
  · by_cases hq : q < (0 : ℚ)
    · refine ⟨-q, ?_, by linarith⟩
      have hb : PV.ltb (.fin q) (.fin 0) = true := by
        simp [PV.ltb, hq]
      rw [if_pos hb]
      rfl
    · refine ⟨-0, ?_, by norm_num⟩
      have hb : PV.ltb (.fin q) (.fin 0) = false := by
        simp [PV.ltb, hq]
      simp [hb]
      rfl

theorem fneg_neg_of_nonneg (d : PV) (hd : d = .nan ∨ ∃ q, d = .fin q ∧ 0 ≤ q) :
    PV.neg (if PV.ltb d (.fin 0) then d else .fin 0) = .fin 0 := by
  have h0 : PV.neg (.fin 0) = .fin 0 := by
    show PV.fin (-0) = PV.fin 0
    norm_num
  rcases hd with rfl | ⟨q, rfl, hq⟩
  · simpa [PV.ltb] using h0
  · have hb : PV.ltb (.fin q) (.fin 0) = false := by
      simp [PV.ltb]
      linarith
    simpa [hb] using h0

theorem slice_getElem? (xs : List α) (i k t : ℕ) (hkt : k + t < i + 1) :
    ((xs.take (i + 1)).drop k)[t]? = xs[k + t]? := by
  rw [List.getElem?_drop, List.getElem?_take_of_lt hkt]

theorem mem_slice_index {xs : List α} {i k : ℕ} {v : α}
    (hv : v ∈ (xs.take (i + 1)).drop k) :
    ∃ j, k ≤ j ∧ j ≤ i ∧ xs[j]? = some v := by
  obtain ⟨t, ht⟩ := List.mem_iff_getElem?.mp hv
  have htl : t < ((xs.take (i + 1)).drop k).length :=
    (List.getElem?_eq_some_iff.mp ht).1
  rw [List.length_drop, List.length_take] at htl
  have hm : min (i + 1) xs.length ≤ i + 1 := Nat.min_le_left _ _
  have hkt : k + t < i + 1 := by omega
  refine ⟨k + t, by omega, by omega, ?_⟩
  rw [← slice_getElem? xs i k t hkt]
  exact ht

/-- The value produced by one step of the `100 - 100/(1 + gain/loss)` map
is NaN or lies in [0, 100], whenever the gain and loss averages are each
NaN or a non-negative finite number. -/
theorem rsi_step_bound (g l : PV)
    (hg : g = .nan ∨ ∃ q, g = .fin q ∧ 0 ≤ q)
    (hl : l = .nan ∨ ∃ q, l = .fin q ∧ 0 ≤ q) :
    (PV.fin 100).sub ((PV.fin 100).div ((PV.fin 1).add (g.div l))) = .nan ∨
    ∃ q, (PV.fin 100).sub ((PV.fin 100).div ((PV.fin 1).add (g.div l))) = .fin q ∧
      0 ≤ q ∧ q ≤ 100 := by
  rcases hg with rfl | ⟨a, rfl, ha⟩
  · left
    rcases hl with rfl | ⟨b, rfl, _⟩ <;> rfl
  · rcases hl with rfl | ⟨b, rfl, hb⟩
    · left; rfl
    · by_cases hb0 : b = 0
      · subst hb0
        by_cases ha0 : a = 0
        · subst ha0
          left
          have hdiv : (PV.fin 0).div (.fin 0) = .nan := by simp [PV.div]
          rw [hdiv]
          rfl
        · have hapos : 0 < a := lt_of_le_of_ne ha (Ne.symm ha0)
          right
          have hdiv : (PV.fin a).div (.fin 0) = .inf := by
            simp [PV.div, ha0, hapos]
          rw [hdiv]
          refine ⟨100 + -0, ?_, by norm_num, by norm_num⟩
          rfl
      · right
        have hbpos : 0 < b := lt_of_le_of_ne hb (Ne.symm hb0)
        have hdiv : (PV.fin a).div (.fin b) = .fin (a / b) := by
          simp [PV.div, hb0]
        rw [hdiv]
        have ht : 0 ≤ a / b := div_nonneg ha hb
        have h1t : (0 : ℚ) < 1 + a / b := by linarith
        have hadd : (PV.fin 1).add (.fin (a / b)) = .fin (1 + a / b) := rfl
        rw [hadd]
        have hdiv2 : (PV.fin 100).div (.fin (1 + a / b)) = .fin (100 / (1 + a / b)) := by
          simp [PV.div, ne_of_gt h1t]
        rw [hdiv2]
        refine ⟨100 + -(100 / (1 + a / b)), rfl, ?_, ?_⟩
        · have hle : 100 / (1 + a / b) ≤ 100 := by
            rw [div_le_iff₀ h1t]
            nlinarith
          linarith
        · have hge : 0 < 100 / (1 + a / b) := by positivity
          linarith

theorem rollingMeanPV_nan_or_nonneg (w m : ℕ) (xs : List PV)
    (hx : ∀ v ∈ xs, ∃ q, v = .fin q ∧ 0 ≤ q) (i : ℕ) (u : PV)
    (hu : (rollingMeanPV w m xs)[i]? = some u) :
    u = .nan ∨ ∃ q, u = .fin q ∧ 0 ≤ q := by
  have hi : i < xs.length := by
    have h1 := (List.getElem?_eq_some_iff.mp hu).1
    rwa [length_rollingMeanPV] at h1
  rw [getElem?_rollingMeanPV w m xs i hi] at hu
  injection hu with hu
  set obs := ((xs.take (i + 1)).drop (i + 1 - w)).filter (fun v => !v.isNan) with hobs
  by_cases hg : m ≤ obs.length ∧ 1 ≤ obs.length
  · rw [if_pos hg] at hu
    have hmem : ∀ v ∈ obs, ∃ q, v = .fin q ∧ 0 ≤ q := by
      intro v hv
      exact hx v (List.mem_of_mem_take (List.mem_of_mem_drop
        (List.mem_filter.mp hv).1))
    obtain ⟨s, hs, hs0⟩ := foldr_add_fin_nonneg obs hmem
    have hlen : ((obs.length : ℚ)) ≠ 0 := by
      have : (0 : ℚ) < (obs.length : ℚ) := by exact_mod_cast hg.2
      linarith
    have hdiv : (PV.fin s).div (.fin (obs.length : ℚ)) = .fin (s / obs.length) := by
      simp [PV.div, hlen]
    right
    refine ⟨s / obs.length, ?_, div_nonneg hs0 (by positivity)⟩
    rw [← hu, hs, hdiv]
  · left
    rw [if_neg hg] at hu
    exact hu.symm

theorem gainRaw_fin_nonneg (closes : List ℚ) :
    ∀ v ∈ (diffQ closes).map (fun d => if PV.ltb (.fin 0) d then d else .fin 0),
      ∃ q, v = .fin q ∧ 0 ≤ q := by
  intro v hv
  obtain ⟨d, hd, rfl⟩ := List.mem_map.mp hv
  exact fpos_fin_nonneg d (mem_diffQ_nan_or_fin closes d hd)

theorem lossRaw_fin_nonneg (closes : List ℚ) :
    ∀ v ∈ ((diffQ closes).map (fun d => if PV.ltb d (.fin 0) then d else .fin 0)).map
      PV.neg, ∃ q, v = .fin q ∧ 0 ≤ q := by
  intro v hv
  rw [List.map_map] at hv
  obtain ⟨d, hd, rfl⟩ := List.mem_map.mp hv
  exact fneg_neg_fin_nonneg d (mem_diffQ_nan_or_fin closes d hd)

/-- Every RSI cell is NaN or a rational in [0, 100]. -/
theorem computeRsi_nan_or_bounded (p : ℕ) (closes : List ℚ) (i : ℕ) (v : PV)
    (hv : (computeRsi p closes)[i]? = some v) :
    v = .nan ∨ ∃ q, v = .fin q ∧ 0 ≤ q ∧ q ≤ 100 := by
  simp only [computeRsi] at hv
  rw [List.getElem?_map] at hv
  set gain := rollingMeanPV p 1
    ((diffQ closes).map fun d => if PV.ltb (.fin 0) d then d else .fin 0) with hgain
  set loss := rollingMeanPV p 1
    (((diffQ closes).map fun d => if PV.ltb d (.fin 0) then d else .fin 0).map PV.neg)
    with hloss
  cases hrs : (List.zipWith PV.div gain loss)[i]? with
  | none => rw [hrs] at hv; simp at hv
  | some r =>
    rw [hrs] at hv
    simp only [Option.map_some', Option.some.injEq] at hv
    obtain ⟨g, l, hgi, hli, hr⟩ := List.getElem?_zipWith_eq_some.mp hrs
    have hgval := rollingMeanPV_nan_or_nonneg p 1 _ (gainRaw_fin_nonneg closes) i g hgi
    have hlval := rollingMeanPV_nan_or_nonneg p 1 _ (lossRaw_fin_nonneg closes) i l hli
    rw [← hv, ← hr]
    exact rsi_step_bound g l hgval hlval

/-- When every close-delta in the oscillator window is non-negative and
at least one is strictly positive, the RSI saturates at exactly 100 (the
loss average is zero, the gain average positive, the ratio +infinity). -/
theorem computeRsi_saturation (p : ℕ) (hp : 1 ≤ p) (closes : List ℚ) (i : ℕ)
    (hi : i < closes.length)
    (hmono : ∀ j a b, i + 1 - p ≤ j → j ≤ i → 1 ≤ j →
      closes[j - 1]? = some a → closes[j]? = some b → a ≤ b)
    (hpos : ∃ j a b, i + 1 - p ≤ j ∧ j ≤ i ∧ 1 ≤ j ∧
      closes[j - 1]? = some a ∧ closes[j]? = some b ∧ a < b) :
    (computeRsi p closes)[i]? = some (.fin 100) := by
  simp only [computeRsi]
  set gainRaw := (diffQ closes).map (fun d => if PV.ltb (.fin 0) d then d else .fin 0)
    with hgainRaw
  set lossRaw := ((diffQ closes).map
    (fun d => if PV.ltb d (.fin 0) then d else .fin 0)).map PV.neg with hlossRaw
  have hdlen : (diffQ closes).length = closes.length := length_diffQ closes
  have hglen : gainRaw.length = closes.length := by
    rw [hgainRaw, List.length_map, hdlen]
  have hllen : lossRaw.length = closes.length := by
    rw [hlossRaw, List.length_map, List.length_map, hdlen]
  have hlossSlice : ∀ v ∈ (lossRaw.take (i + 1)).drop (i + 1 - p), v = .fin 0 := by
    intro v hv
    obtain ⟨j, hkj, hji, hj⟩ := mem_slice_index hv
    rw [hlossRaw, List.map_map, List.getElem?_map] at hj
    rcases j with _ | j'
    · rw [getElem?_diffQ_zero closes (by omega)] at hj
      simp only [Option.map_some', Option.some.injEq, Function.comp] at hj
      rw [← hj]
      exact fneg_neg_of_nonneg .nan (Or.inl rfl)
    · have hj0 : j' < closes.length := by omega
      obtain ⟨a, ha⟩ : ∃ a, closes[j']? = some a :=
        ⟨_, List.getElem?_eq_getElem hj0⟩
      obtain ⟨b, hb⟩ : ∃ b, closes[j' + 1]? = some b :=
        ⟨_, List.getElem?_eq_getElem (by omega)⟩
      rw [getElem?_diffQ_succ closes j' a b ha hb] at hj
      simp only [Option.map_some', Option.some.injEq, Function.comp] at hj
      rw [← hj]
      have hab : a ≤ b := hmono (j' + 1) a b (by omega) (by omega) (by omega)
        (by simpa using ha) hb
      exact fneg_neg_of_nonneg (.fin (b - a)) (Or.inr ⟨b - a, rfl, by linarith⟩)
  have hiL : i < lossRaw.length := by rw [hllen]; exact hi
  have hslenL : ((lossRaw.take (i + 1)).drop (i + 1 - p)).length
      = i + 1 - (i + 1 - p) := by
    rw [List.length_drop, List.length_take, hllen,
      Nat.min_eq_left (by omega : i + 1 ≤ closes.length)]
  have hLi : (rollingMeanPV p 1 lossRaw)[i]? = some (.fin 0) := by
    rw [getElem?_rollingMeanPV p 1 lossRaw i hiL]
    have hfe : ((lossRaw.take (i + 1)).drop (i + 1 - p)).filter (fun v => !v.isNan)
        = (lossRaw.take (i + 1)).drop (i + 1 - p) :=
      List.filter_eq_self.mpr (fun v hv => by rw [hlossSlice v hv]; rfl)
    rw [hfe, if_pos ⟨by rw [hslenL]; omega, by rw [hslenL]; omega⟩,
      foldr_add_fin_zero _ hlossSlice]
    have hlnq : ((((lossRaw.take (i + 1)).drop (i + 1 - p)).length : ℕ) : ℚ) ≠ 0 := by
      have hq : ((lossRaw.take (i + 1)).drop (i + 1 - p)).length ≠ 0 := by
        rw [hslenL]; omega
      exact_mod_cast hq
    have hdiv : (PV.fin 0).div
        (.fin ((((lossRaw.take (i + 1)).drop (i + 1 - p)).length : ℕ) : ℚ)) = .fin 0 := by
      simp only [PV.div]
      rw [if_neg hlnq]
      norm_num
    rw [hdiv]
  obtain ⟨j, a, b, hkj, hji, h1j, ha, hb, hab⟩ := hpos
  obtain ⟨j', rfl⟩ : ∃ t, j = t + 1 := ⟨j - 1, by omega⟩
  have ha' : closes[j']? = some a := by simpa using ha
  have hd := getElem?_diffQ_succ closes j' a b ha' hb
  have hslice_g : ((gainRaw.take (i + 1)).drop (i + 1 - p))[j' + 1 - (i + 1 - p)]?
      = some (.fin (b - a)) := by
    rw [slice_getElem? gainRaw i (i + 1 - p) _ (by omega)]
    have hidx : (i + 1 - p) + (j' + 1 - (i + 1 - p)) = j' + 1 := by omega
    rw [hidx, hgainRaw, List.getElem?_map, hd]
    simp only [Option.map_some', Option.some.injEq]
    exact fpos_of_pos (b - a) (by linarith)
  have hmemg : PV.fin (b - a) ∈ (gainRaw.take (i + 1)).drop (i + 1 - p) :=
    List.getElem?_mem hslice_g
  have hgainNonneg : ∀ v ∈ (gainRaw.take (i + 1)).drop (i + 1 - p),
      ∃ q, v = .fin q ∧ 0 ≤ q := fun v hv =>
    gainRaw_fin_nonneg closes v (List.mem_of_mem_take (List.mem_of_mem_drop hv))
  obtain ⟨s, hs, hs0⟩ := foldr_add_fin_pos _ hgainNonneg
    ⟨.fin (b - a), hmemg, b - a, rfl, by linarith⟩
  have hiG : i < gainRaw.length := by rw [hglen]; exact hi
  have hfg : ((gainRaw.take (i + 1)).drop (i + 1 - p)).filter (fun v => !v.isNan)
      = (gainRaw.take (i + 1)).drop (i + 1 - p) :=
    List.filter_eq_self.mpr (fun v hv => by
      obtain ⟨q, hq, -⟩ := hgainNonneg v hv
      rw [hq]; rfl)
  have hslenG : ((gainRaw.take (i + 1)).drop (i + 1 - p)).length
      = i + 1 - (i + 1 - p) := by
    rw [List.length_drop, List.length_take, hglen,
      Nat.min_eq_left (by omega : i + 1 ≤ closes.length)]
  have hlenGq : ((((gainRaw.take (i + 1)).drop (i + 1 - p)).length : ℕ) : ℚ) ≠ 0 := by
    have hq : ((gainRaw.take (i + 1)).drop (i + 1 - p)).length ≠ 0 := by
      rw [hslenG]; omega
    exact_mod_cast hq
  have hlenGpos : (0 : ℚ)
      < ((((gainRaw.take (i + 1)).drop (i + 1 - p)).length : ℕ) : ℚ) := by
    have hq : 0 < ((gainRaw.take (i + 1)).drop (i + 1 - p)).length := by
      rw [hslenG]; omega
    exact_mod_cast hq
  have hGi : (rollingMeanPV p 1 gainRaw)[i]?
      = some (.fin (s / ((((gainRaw.take (i + 1)).drop (i + 1 - p)).length : ℕ) : ℚ))) := by
    rw [getElem?_rollingMeanPV p 1 gainRaw i hiG]
    rw [hfg, if_pos ⟨by rw [hslenG]; omega, by rw [hslenG]; omega⟩, hs]
    have hdivG : (PV.fin s).div
        (.fin ((((gainRaw.take (i + 1)).drop (i + 1 - p)).length : ℕ) : ℚ))
        = .fin (s / ((((gainRaw.take (i + 1)).drop (i + 1 - p)).length : ℕ) : ℚ)) := by
      simp only [PV.div]
      rw [if_neg hlenGq]
    rw [hdivG]
  have hgq : 0 < s / ((((gainRaw.take (i + 1)).drop (i + 1 - p)).length : ℕ) : ℚ) :=
    div_pos hs0 hlenGpos
  rw [List.getElem?_map, List.getElem?_zipWith, hGi, hLi]
  simp only [Option.map_some', Option.some.injEq]
  have hdiv0 : (PV.fin (s / ((((gainRaw.take (i + 1)).drop (i + 1 - p)).length : ℕ) : ℚ))).div
      (.fin 0) = .inf := by
    simp only [PV.div, if_true, eq_self_iff_true]
    rw [if_neg (ne_of_gt hgq), if_pos hgq]
  rw [hdiv0]
  show (PV.fin 100).sub ((PV.fin 100).div ((PV.fin 1).add .inf)) = PV.fin 100
  norm_num [PV.sub, PV.add, PV.div, PV.neg]

end RsiLemmas

/-- C3 (amended): every oscillator cell the engine produces is undefined
or lies in [0, 100]; and a window whose close-deltas are all non-negative
with at least one strictly positive delta yields exactly 100 (the loss
average is zero and the ratio saturates).  A window with no negative AND
no positive deltas yields an undefined oscillator (0/0), not 100, which
is the one correction to the original claim. -/
theorem C3_oscillator_range_and_saturation :
    (∀ (cfg : IndicatorConfig) (sqrtF : ℚ → ℚ) (closes : List ℚ)
      (volume : Option (List ℚ)) (tsIndex : Option (List (ℕ × ℕ)))
      (frame : IndicatorFrame) (i : ℕ) (v : PV),
      add_all_technical_indicators cfg sqrtF closes volume tsIndex = .ok frame →
      frame.rsi[i]? = some v →
      v = .nan ∨ ∃ q, v = .fin q ∧ 0 ≤ q ∧ q ≤ 100) ∧
    (∀ (cfg : IndicatorConfig) (sqrtF : ℚ → ℚ) (closes : List ℚ)
      (volume : Option (List ℚ)) (tsIndex : Option (List (ℕ × ℕ)))
      (frame : IndicatorFrame) (i : ℕ),
      add_all_technical_indicators cfg sqrtF closes volume tsIndex = .ok frame →
      i < closes.length →
      (∀ j a b, i + 1 - cfg.rsi_period.toNat ≤ j → j ≤ i → 1 ≤ j →
        closes[j - 1]? = some a → closes[j]? = some b → a ≤ b) →
      (∃ j a b, i + 1 - cfg.rsi_period.toNat ≤ j ∧ j ≤ i ∧ 1 ≤ j ∧
        closes[j - 1]? = some a ∧ closes[j]? = some b ∧ a < b) →
      frame.rsi[i]? = some (.fin 100)) := by
  constructor
  · intro cfg sqrtF closes volume tsIndex frame i v hok hv
    obtain ⟨-, -, -, -, -, hrsi, -⟩ := add_all_ok_inv hok
    rw [hrsi] at hv
    exact computeRsi_nan_or_bounded _ closes i v hv
  · intro cfg sqrtF closes volume tsIndex frame i hok hi hmono hpos
    obtain ⟨-, h1, -, -, -, hrsi, -⟩ := add_all_ok_inv hok
    rw [hrsi]
    exact computeRsi_saturation cfg.rsi_period.toNat (by omega) closes i hi hmono hpos

theorem C3_oscillator_range_and_saturation_witness :
    ∃ frame,
      add_all_technical_indicators ⟨20, 2, 14, 12, 26, 9⟩ id [1, 2] none none
        = .ok frame ∧
      frame.rsi[1]? = some (.fin 100) ∧
      (PV.fin 100 = PV.nan ∨ ∃ q, PV.fin 100 = PV.fin q ∧ 0 ≤ q ∧ q ≤ 100) := by
  obtain ⟨frame, hok, -, -⟩ := add_all_ok_of_valid ⟨20, 2, 14, 12, 26, 9⟩ id
    [1, 2] none none (by norm_num) (by norm_num) (by norm_num) (by norm_num)
    (by norm_num)
  have hsat := C3_oscillator_range_and_saturation.2 ⟨20, 2, 14, 12, 26, 9⟩ id
    [1, 2] none none frame 1 hok (by norm_num)
    (by
      intro j a b hj1 hj2 hj3 ha hb
      have hj : j = 1 := by omega
      subst hj
      norm_num at ha hb
      subst ha
      subst hb
      norm_num)
    ⟨1, 1, 2, by norm_num, by norm_num, by norm_num, rfl, rfl, by norm_num⟩
  have hbound := C3_oscillator_range_and_saturation.1 ⟨20, 2, 14, 12, 26, 9⟩ id
    [1, 2] none none frame 1 (.fin 100) hok hsat
  exact ⟨frame, hok, hsat, hbound⟩

/-- C3 counterexample: the flat series `[1, 1]` has no negative
close-delta in any oscillator window, yet the oscillator is NaN on every
row (the gain and loss averages are both zero, so the ratio is 0/0), not
100 — refuting "a window with no negative close-deltas yields exactly
100 rather than being undefined". -/
theorem C3_flat_window_oscillator_undefined :
    Except.map (fun fr => fr.rsi)
      (add_all_technical_indicators ⟨20, 2, 14, 12, 26, 9⟩ id [1, 1] none none)
      = .ok [PV.nan, PV.nan] ∧
    (0 : ℚ) ≤ (1 : ℚ) - 1 ∧ PV.nan ≠ PV.fin 100 := by
  refine ⟨?_, by norm_num, fun h => PV.noConfusion h⟩
  obtain ⟨frame, hok, hrsi, -⟩ := add_all_ok_of_valid ⟨20, 2, 14, 12, 26, 9⟩ id
    [1, 1] none none (by norm_num) (by norm_num) (by norm_num) (by norm_num)
    (by norm_num)
  rw [hok]
  simp only [Except.map]
  rw [hrsi]
  have htn : ((14 : ℤ).toNat) = 14 := rfl
  rw [htn]
  have h1 : diffQ [1, 1] = [PV.nan, PV.fin 0] := by
    norm_num [diffQ]
  have h2 : ([PV.nan, PV.fin 0].map
      (fun d => if PV.ltb (.fin 0) d then d else .fin 0)) = [PV.fin 0, PV.fin 0] := by
    norm_num [PV.ltb]
  have h3 : (([PV.nan, PV.fin 0].map
      (fun d => if PV.ltb d (.fin 0) then d else .fin 0)).map PV.neg)
      = [PV.fin 0, PV.fin 0] := by
    norm_num [PV.ltb, PV.neg]
  have h4 : rollingMeanPV 14 1 [PV.fin 0, PV.fin 0] = [PV.fin 0, PV.fin 0] := by
    norm_num [rollingMeanPV, PV.isNan, PV.add, PV.div,
      show List.range 2 = [0, 1] from rfl, List.filter]
  have h5 : List.zipWith PV.div [PV.fin 0, PV.fin 0] [PV.fin 0, PV.fin 0]
      = [PV.nan, PV.nan] := by
    norm_num [PV.div]
  simp only [computeRsi, h1, h2, h3, h4, h5]
  norm_num [PV.add, PV.div, PV.sub, PV.neg]

end MeanReversion
